import Mathlib

/-!
# subfuf: a three-stage reconnaissance pipeline

A shallow embedding of `subfuf.go`.  The program reads a file of root domains,
runs `subfinder` once per line, hands the collected output to `httpx` through
a temporary file, reads back the hosts `httpx` reports live, optionally saves
them, and finally runs `ffuf` over a second temporary file holding those hosts.

The file system is a map from paths to contents, the external tools and the
choices of the operating system are functions supplied by an environment, and
`log.Fatal` is a result constructor which ends the run *without* executing
deferred calls (it calls `os.Exit(1)`).  Texts are taken to be valid UTF-8,
and reads of an opened file and writes to a created file are taken to succeed.
-/

set_option autoImplicit false

namespace Subfuf

/-! ## File system -/

/-- A file system maps a path to the content of the file stored there. -/
abbrev FS := String → Option String

/-- Store `content` at `path`, replacing whatever was there. -/
def FS.write (fs : FS) (path content : String) : FS :=
  fun q => if q = path then some content else fs q

/-- The effect of `os.Remove(path)`. -/
def FS.remove (fs : FS) (path : String) : FS :=
  fun q => if q = path then none else fs q

/-- Append `buf` to the file at `path` (a flushed write through an open descriptor). -/
def FS.append (fs : FS) (path buf : String) : FS :=
  match fs path with
  | some old => fs.write path (old ++ buf)
  | none => fs

/-! ## Library functions used by the program -/

/-- The constant `bufio.MaxScanTokenSize`. -/
def MaxScanTokenSize : Nat := 64 * 1024

/-- The helper `dropCR` of `bufio.ScanLines`: one trailing carriage return is dropped. -/
def dropCR (data : List Char) : List Char :=
  if data.getLast? = some '\r' then data.dropLast else data

/-- Cut a text at every line feed; a final line feed does not open a further line. -/
def rawLines : List Char → List (List Char)
  | [] => []
  | c :: cs =>
    if c = '\n' then [] :: rawLines cs
    else
      match rawLines cs with
      | [] => [[c]]
      | l :: ls => (c :: l) :: ls

/-- The lines of a text file: the text between line feeds, nothing removed. -/
def fileLines (content : String) : List String :=
  (rawLines content.data).map String.mk

/-- The tokens a `bufio.Scanner` with the `ScanLines` split function yields over
the given raw lines, with the flag telling whether it stopped on `ErrTooLong`:
a line that does not fit the buffer (64 KiB including room for the line feed)
ends the scan, the tokens before it having been delivered. -/
def scanTokens : List (List Char) → List String × Bool
  | [] => ([], false)
  | l :: ls =>
    if MaxScanTokenSize ≤ (String.mk l).utf8ByteSize then ([], true)
    else ((String.mk (dropCR l)) :: (scanTokens ls).1, (scanTokens ls).2)

/-- Scanning a whole file line by line: `for scanner.Scan() { ... scanner.Text() ... }`
followed by `scanner.Err()`. -/
def ScanLines (content : String) : List String × Bool :=
  scanTokens (rawLines content.data)

/-- The effect of `fmt.Fprintln(writer, s)` on the writer's buffer. -/
def Fprintln (buf s : String) : String := buf ++ s ++ "\n"

/-- The buffer after `for _, s := range ss { fmt.Fprintln(writer, s) }`. -/
def writeLines (ss : List String) : String := ss.foldl Fprintln ""

/-- An `exec.Cmd`: the program to run and its argument vector. -/
structure Cmd where
  Path : String
  Args : List String

/-- The constructor `exec.Command(name, arg...)`; `Args` starts with the command name. -/
def Command (name : String) (arg : List String) : Cmd := ⟨name, name :: arg⟩

/-! ## The world the program runs in -/

/-- One invocation of an external tool, with the file system it was started on. -/
structure Call where
  cmd : Cmd
  fs : FS

/-- File operations the program performs itself. -/
inductive FileOp where
  | Open (path : String)
  | Create (path : String)
  | CreateTemp (path : String)
  | Remove (path : String)
  deriving DecidableEq

/-- Observable state: the file system, the external invocations made so far,
the files the program touched, and what it printed on standard output. -/
structure World where
  fs : FS
  calls : List Call
  files : List FileOp
  console : List String

/-- The state a run of the program starts in. -/
def World.start (fs : FS) : World := ⟨fs, [], [], []⟩

/-- The behaviour of everything outside the program. -/
structure Env where
  /-- The name `os.CreateTemp("", pattern)` picks, `none` when it gives up. -/
  tempName : FS → String → Option String
  /-- Whether `os.Create(path)` succeeds. -/
  canCreate : FS → String → Bool
  /-- Standard output of a `subfinder` run, `none` when the run fails; the
  number is the count of external invocations made before this one. -/
  subfinder : Nat → Cmd → Option String
  /-- Success flag of an `httpx` run and the file system it leaves behind. -/
  httpx : FS → Cmd → Bool × FS
  /-- Success flag of an `ffuf` run and the file system it leaves behind. -/
  ffuf : FS → Cmd → Bool × FS

/-- A stage either returns a value or ends the program through `log.Fatal`. -/
inductive Result (α : Type) where
  | ok (value : α) (w : World)
  | fatal (w : World)

/-- The state a stage ends in, on either kind of exit. -/
def Result.world {α : Type} : Result α → World
  | .ok _ w => w
  | .fatal w => w

/-- The effect of `fmt.Println(s)`. -/
def World.println (w : World) (s : String) : World :=
  { w with console := w.console ++ [s ++ "\n"] }

/-- Record a file operation. -/
def World.touch (w : World) (op : FileOp) : World :=
  { w with files := w.files ++ [op] }

/-- The effect of `os.Remove(path)`. -/
def World.remove (w : World) (path : String) : World :=
  { (w.touch (.Remove path)) with fs := w.fs.remove path }

/-- The function `os.CreateTemp("", pattern)`: the new file is empty and did not exist before. -/
def CreateTemp (env : Env) (w : World) (pattern : String) : Option (String × World) :=
  match env.tempName w.fs pattern with
  | none => none
  | some name =>
    if w.fs name = none then
      some (name, { (w.touch (.CreateTemp name)) with fs := w.fs.write name "" })
    else none

/-- The function `os.Create(path)`: the file is created or truncated. -/
def Create (env : Env) (w : World) (path : String) : Option World :=
  if env.canCreate w.fs path then
    some { (w.touch (.Create path)) with fs := w.fs.write path "" }
  else none

/-- Write the given lines through a buffered writer to an open file and flush. -/
def World.flushLines (w : World) (path : String) (ss : List String) : World :=
  { w with fs := w.fs.append path (writeLines ss) }

/-! ## The program -/

/-- The scanning loop of `findSubdomains`: one `subfinder -d` run per scanned line. -/
def findSubdomainsLoop (env : Env) : List String → World → List String → Result (List String)
  | [], w, subdomains => .ok subdomains w
  | domain :: rest, w, subdomains =>
    let w1 := w.println ("Running subfinder for domain: " ++ domain)
    let cmd := Command "subfinder" ["-d", domain]
    let w2 : World := { w1 with calls := w1.calls ++ [⟨cmd, w1.fs⟩] }
    match env.subfinder w1.calls.length cmd with
    | none => .fatal w2
    | some output => findSubdomainsLoop env rest w2 (subdomains ++ [output])

/-- The function `findSubdomains`. -/
def findSubdomains (env : Env) (w : World) (domainsFile : String) : Result (List String) :=
  let w0 := w.touch (.Open domainsFile)
  match w0.fs domainsFile with
  | none => .fatal w0
  | some content =>
    match findSubdomainsLoop env (ScanLines content).1 w0 [] with
    | .fatal w1 => .fatal w1
    | .ok subdomains w1 =>
      if (ScanLines content).2 then .fatal w1 else .ok subdomains w1

/-- The function `probeSubdomains`.  Its deferred `os.Remove` runs on the two
normal returns only. -/
def probeSubdomains (env : Env) (w : World) (subdomains : List String)
    (subdomainsFile : String) : Result (List String) :=
  match CreateTemp env w "httpx-input-" with
  | none => .fatal w
  | some (tmpFile, w1) =>
    let w2 := w1.flushLines tmpFile subdomains
    let cmd := Command "httpx" ["-l", tmpFile, "-o", tmpFile ++ "-live"]
    let w3 : World := { w2 with calls := w2.calls ++ [⟨cmd, w2.fs⟩], fs := (env.httpx w2.fs cmd).2 }
    if (env.httpx w2.fs cmd).1 = false then .fatal w3
    else
      let w4 := w3.touch (.Open (tmpFile ++ "-live"))
      match w4.fs (tmpFile ++ "-live") with
      | none => .fatal w4
      | some liveContent =>
        let liveSubdomains := (ScanLines liveContent).1
        if (ScanLines liveContent).2 then .fatal w4
        else if subdomainsFile ≠ "" then
          match Create env w4 subdomainsFile with
          | none => .fatal w4
          | some w5 =>
            .ok liveSubdomains ((w5.flushLines subdomainsFile liveSubdomains).remove tmpFile)
        else .ok liveSubdomains (w4.remove tmpFile)

/-- The function `runFfuf`; the Boolean tells whether the returned error is non-nil. -/
def runFfuf (env : Env) (w : World) (subdomains : List String)
    (fuzz2File outputFile : String) : Bool × World :=
  match CreateTemp env w "fuzz1-" with
  | none => (true, w)
  | some (tmpFile, w1) =>
    let w2 := w1.flushLines tmpFile subdomains
    let ffufCmd := Command "ffuf" ["-w", tmpFile ++ ":FUZZ1", "-w", fuzz2File ++ ":FUZZ2",
      "-u", "https://FUZZ1FUZZ2", "-mode", "clusterbomb", "-mc", "200,403", "-c"]
    let ffufCmd : Cmd :=
      if outputFile ≠ "" then { ffufCmd with Args := ffufCmd.Args ++ ["-o", outputFile] }
      else ffufCmd
    let w3 := w2.println "Running ffuf clusterbomb fuzzing..."
    let w4 : World :=
      { w3 with calls := w3.calls ++ [⟨ffufCmd, w3.fs⟩], fs := (env.ffuf w3.fs ffufCmd).2 }
    (!(env.ffuf w3.fs ffufCmd).1, w4.remove tmpFile)

/-- The flags as given on the command line; `none` is a flag that was not given. -/
structure CommandLine where
  d : Option String
  s : Option String
  f : Option String
  o : Option String
  deriving DecidableEq

/-- The command line before any flag has been seen. -/
def noFlags : CommandLine := ⟨none, none, none, none⟩

/-- The value a flag of the program was given, `none` for any other name. -/
def CommandLine.get (cl : CommandLine) (name : String) : Option String :=
  if name = "d" then cl.d
  else if name = "s" then cl.s
  else if name = "f" then cl.f
  else if name = "o" then cl.o
  else none

/-- Looking up a flag among the four the program declares (`flag.String` for
`d`, `s`, `f`, `o`) and setting its value; `none` when no such flag is declared. -/
def CommandLine.assign (cl : CommandLine) (name value : String) : Option CommandLine :=
  if name = "d" then some { cl with d := some value }
  else if name = "s" then some { cl with s := some value }
  else if name = "f" then some { cl with f := some value }
  else if name = "o" then some { cl with o := some value }
  else none

/-- What `FlagSet.parseOne` makes of one argument. -/
inductive Arg where
  /-- Not a flag, or the terminator `--`: parsing ends here. -/
  | stop
  /-- Bad flag syntax. -/
  | bad
  /-- A flag, with the value given after `=`, if any. -/
  | flag (name : String) (value : Option String)

/-- Cut a flag at its first equals sign. -/
def cutAtEquals : List Char → List Char × Option (List Char)
  | [] => ([], none)
  | c :: cs =>
    if c = '=' then ([], some cs) else (c :: (cutAtEquals cs).1, (cutAtEquals cs).2)

/-- The flag named by an argument once its leading minus signs are removed. -/
def flagOfName (name : List Char) : Arg :=
  match name with
  | [] => .bad
  | c :: _ =>
    if c = '-' ∨ c = '=' then .bad
    else .flag (String.mk (cutAtEquals name).1) ((cutAtEquals name).2.map String.mk)

/-- The syntactic part of `FlagSet.parseOne`: an argument shorter than two
bytes or not starting with a minus sign is no flag, `--` ends the flags, and
otherwise one or two minus signs are followed by `name` or `name=value`. -/
def parseArg (s : String) : Arg :=
  match s.data with
  | c0 :: c1 :: rest =>
    if c0 ≠ '-' then .stop
    else if c1 = '-' then (if rest = [] then .stop else flagOfName rest)
    else flagOfName (c1 :: rest)
  | _ => .stop

/-- The outcome of `flag.Parse()`. -/
inductive Parsed where
  | ok (cl : CommandLine)
  /-- The error `flag.ErrHelp`: `-h` or `-help` was met. -/
  | help
  /-- Any other parse error. -/
  | failed
  deriving DecidableEq

/-- The outcome for a flag name the program does not declare. -/
def undeclared (name : String) : Parsed :=
  if name = "help" ∨ name = "h" then .help else .failed

/-- The loop of `FlagSet.Parse` over the arguments after the program name: a
declared flag takes its value from `=value` or from the next argument. -/
def Parse : List String → CommandLine → Parsed
  | [], cl => .ok cl
  | [s], cl =>
    match parseArg s with
    | .stop => .ok cl
    | .bad => .failed
    | .flag name (some value) =>
      match cl.assign name value with
      | none => undeclared name
      | some cl1 => .ok cl1
    | .flag name none =>
      match cl.assign name "" with
      | none => undeclared name
      | some _ => .failed
  | s :: v :: rest, cl =>
    match parseArg s with
    | .stop => .ok cl
    | .bad => .failed
    | .flag name (some value) =>
      match cl.assign name value with
      | none => undeclared name
      | some cl1 => Parse (v :: rest) cl1
    | .flag name none =>
      match cl.assign name v with
      | none => undeclared name
      | some cl1 => Parse rest cl1

/-- Whether an argument is the flag `name`, with or without a value. -/
def isFlag (name : String) (s : String) : Bool :=
  match parseArg s with
  | .flag n _ => n = name
  | _ => false

/-- Whether some argument of the command line is the flag `name`. -/
def given (name : String) (args : List String) : Bool := args.any (isFlag name)

/-- The function `main` on the arguments after the program name: the exit
status and the final state.  The command line `flag.CommandLine` exits with
status 0 on `flag.ErrHelp` and with status 2 on any other parse error. -/
def main (env : Env) (fs : FS) (args : List String) : Nat × World :=
  match Parse args noFlags with
  | .help => (0, World.start fs)
  | .failed => (2, World.start fs)
  | .ok cl =>
    let domainsFile := cl.d.getD ""
    let subdomainsFile := cl.s.getD "subdomains.txt"
    let fuzz2File := cl.f.getD ""
    let outputFile := cl.o.getD ""
    let w := World.start fs
    if domainsFile = "" ∨ fuzz2File = "" then (1, w)
    else
      match findSubdomains env w domainsFile with
      | .fatal w1 => (1, w1)
      | .ok subdomains w1 =>
        match probeSubdomains env w1 subdomains subdomainsFile with
        | .fatal w2 => (1, w2)
        | .ok liveSubdomains w2 =>
          match runFfuf env w2 liveSubdomains fuzz2File outputFile with
          | (true, w3) => (1, w3)
          | (false, w3) => (0, w3)

/-! ## Auxiliary definitions used in the statements -/

/-- The characters of a text made of the given lines, each followed by one line feed. -/
def joinLines : List String → List Char
  | [] => []
  | s :: ss => s.data ++ '\n' :: joinLines ss

/-- One trailing carriage return removed, as the line scanner does. -/
def stripCR (s : String) : String := String.mk (dropCR s.data)

/-- The command `runFfuf` builds. -/
def ffufCommand (tmpFile fuzz2File outputFile : String) : Cmd :=
  if outputFile ≠ "" then
    { Command "ffuf" ["-w", tmpFile ++ ":FUZZ1", "-w", fuzz2File ++ ":FUZZ2",
        "-u", "https://FUZZ1FUZZ2", "-mode", "clusterbomb", "-mc", "200,403", "-c"] with
      Args := (Command "ffuf" ["-w", tmpFile ++ ":FUZZ1", "-w", fuzz2File ++ ":FUZZ2",
        "-u", "https://FUZZ1FUZZ2", "-mode", "clusterbomb", "-mc", "200,403", "-c"]).Args
          ++ ["-o", outputFile] }
  else Command "ffuf" ["-w", tmpFile ++ ":FUZZ1", "-w", fuzz2File ++ ":FUZZ2",
        "-u", "https://FUZZ1FUZZ2", "-mode", "clusterbomb", "-mc", "200,403", "-c"]

/-- The command `probeSubdomains` builds. -/
def httpxCommand (tmpFile : String) : Cmd :=
  Command "httpx" ["-l", tmpFile, "-o", tmpFile ++ "-live"]

/-! ## Example environments -/

/-- A stub environment: `subfinder` prints `a.example.com\nb.example.com`,
`httpx` reports `a.example.com` only, `ffuf` succeeds; temporary files get
fixed names. -/
def stubEnv : Env where
  tempName := fun _ pattern => some ("/tmp/" ++ pattern ++ "1")
  canCreate := fun _ _ => true
  subfinder := fun _ _ => some "a.example.com\nb.example.com"
  httpx := fun fs cmd => (true, fs.write (cmd.Args.getD 4 "") "a.example.com\n")
  ffuf := fun fs _ => (true, fs)

/-- A file system holding a domains file and an earlier `subdomains.txt`. -/
def stubFS : FS :=
  fun q => if q = "domains.txt" then some "example.com\n"
    else if q = "subdomains.txt" then some "old.example.com\n" else none

/-- A domains file with an empty line between two domains. -/
def blankLineFS : FS :=
  fun q => if q = "domains.txt" then some "a.com\n\nb.com\n" else none

/-- A domains file naming two domains. -/
def twoDomainsFS : FS :=
  fun q => if q = "domains.txt" then some "one.com\ntwo.com\n" else none

/-- An environment in which only the first external invocation of `subfinder` succeeds. -/
def secondFailsEnv : Env :=
  { stubEnv with subfinder := fun n _ => if n = 0 then some "www.one.com" else none }

/-- An environment in which `httpx` fails. -/
def httpxFailsEnv : Env :=
  { stubEnv with httpx := fun fs _ => (false, fs) }

/-! ## Lines of a text -/

theorem foldl_Fprintln_data (ss : List String) (buf : String) :
    (ss.foldl Fprintln buf).data = buf.data ++ joinLines ss := by
  induction ss generalizing buf with
  | nil => simp [joinLines]
  | cons s ss ih =>
    simp only [List.foldl_cons, ih, Fprintln, String.data_append, joinLines]
    simp

theorem writeLines_data (ss : List String) : (writeLines ss).data = joinLines ss := by
  simp [writeLines, foldl_Fprintln_data]

theorem rawLines_line (l rest : List Char) (h : '\n' ∉ l) :
    rawLines (l ++ '\n' :: rest) = l :: rawLines rest := by
  induction l with
  | nil => simp [rawLines]
  | cons c l ih =>
    have hc : c ≠ '\n' := fun e => h (by simp [e])
    have hl : '\n' ∉ l := fun e => h (by simp [e])
    simp [rawLines, hc, ih hl]

theorem rawLines_joinLines (ss : List String) (h : ∀ s ∈ ss, '\n' ∉ s.data) :
    rawLines (joinLines ss) = ss.map String.data := by
  induction ss with
  | nil => simp [joinLines, rawLines]
  | cons s ss ih =>
    have hs : '\n' ∉ s.data := h s (by simp)
    have hss : ∀ t ∈ ss, '\n' ∉ t.data := fun t ht => h t (by simp [ht])
    simp [joinLines, rawLines_line _ _ hs, ih hss]

/-- Writing lines that hold no line feed and cutting the text again gives the lines back. -/
theorem fileLines_writeLines (ss : List String) (h : ∀ s ∈ ss, '\n' ∉ s.data) :
    fileLines (writeLines ss) = ss := by
  have hid : (String.mk ∘ String.data) = id := rfl
  simp [fileLines, writeLines_data, rawLines_joinLines ss h, List.map_map, hid]

theorem rawLines_no_lf (cs : List Char) : ∀ l ∈ rawLines cs, '\n' ∉ l := by
  induction cs with
  | nil => simp [rawLines]
  | cons c cs ih =>
    by_cases hc : c = '\n'
    · intro l hl
      simp only [rawLines, hc, if_true, List.mem_cons] at hl
      rcases hl with rfl | hl
      · simp
      · exact ih l hl
    · intro l hl
      simp only [rawLines, hc, if_false] at hl
      cases hr : rawLines cs with
      | nil =>
        rw [hr] at hl
        simp at hl
        subst hl
        simpa using Ne.symm hc
      | cons l0 ls =>
        rw [hr] at hl ih
        simp only [List.mem_cons] at hl
        rcases hl with rfl | hl
        · have := ih l0 (by simp)
          simp [this, Ne.symm hc]
        · exact ih l (by simp [hl])

theorem dropCR_subset (l : List Char) (c : Char) (h : c ∈ dropCR l) : c ∈ l := by
  unfold dropCR at h
  split at h
  · exact List.mem_of_mem_dropLast h
  · exact h

theorem scanTokens_no_lf (ls : List (List Char)) (h : ∀ l ∈ ls, '\n' ∉ l) :
    ∀ s ∈ (scanTokens ls).1, '\n' ∉ s.data := by
  induction ls with
  | nil => simp [scanTokens]
  | cons l ls ih =>
    intro s hs
    unfold scanTokens at hs
    split at hs
    · simp at hs
    · simp only [List.mem_cons] at hs
      rcases hs with rfl | hs
      · exact fun hm => h l (by simp) (dropCR_subset l _ hm)
      · exact ih (fun l hl => h l (by simp [hl])) s hs

/-- No token of the line scanner holds a line feed. -/
theorem ScanLines_no_lf (content : String) : ∀ s ∈ (ScanLines content).1, '\n' ∉ s.data :=
  scanTokens_no_lf _ (rawLines_no_lf _)

theorem scanTokens_short (ls : List (List Char))
    (h : ∀ l ∈ ls, (String.mk l).utf8ByteSize < MaxScanTokenSize) :
    scanTokens ls = (ls.map (fun l => String.mk (dropCR l)), false) := by
  induction ls with
  | nil => simp [scanTokens]
  | cons l ls ih =>
    have hl : ¬ MaxScanTokenSize ≤ (String.mk l).utf8ByteSize := Nat.not_le.mpr (h l (by simp))
    have hls := ih (fun l hl => h l (by simp [hl]))
    simp only [scanTokens, if_neg hl, hls, List.map_cons]

/-- On a file whose lines all fit the scanner's buffer the scan yields every
line of the file, in order, and ends without error. -/
theorem ScanLines_short (content : String)
    (h : ∀ l ∈ fileLines content, l.utf8ByteSize < MaxScanTokenSize) :
    ScanLines content = ((fileLines content).map stripCR, false) := by
  unfold ScanLines
  rw [scanTokens_short]
  · simp [fileLines, stripCR, List.map_map, Function.comp_def]
  · intro l hl
    exact h (String.mk l) (by simp [fileLines]; exact ⟨l, hl, rfl⟩)

/-! ## The enumeration stage -/

theorem findSubdomainsLoop_ok (env : Env) (ds : List String) (w : World) (acc : List String)
    (h : ∀ i d, ds[i]? = some d →
      (env.subfinder (w.calls.length + i) (Command "subfinder" ["-d", d])).isSome) :
    ∃ outs w1, findSubdomainsLoop env ds w acc = .ok (acc ++ outs) w1 ∧
      outs.length = ds.length ∧ w1.fs = w.fs ∧ w1.files = w.files ∧
      w1.calls = w.calls ++ ds.map (fun d => ⟨Command "subfinder" ["-d", d], w.fs⟩) := by
  induction ds generalizing w acc with
  | nil => exact ⟨[], w, by simp [findSubdomainsLoop]⟩
  | cons d ds ih =>
    have h0 := h 0 d (by simp)
    obtain ⟨out, hout⟩ := Option.isSome_iff_exists.mp h0
    simp only [Nat.add_zero] at hout
    let w2 : World :=
      { w.println ("Running subfinder for domain: " ++ d) with
        calls := w.calls ++ [⟨Command "subfinder" ["-d", d], w.fs⟩] }
    have hrec := ih w2 (acc ++ [out]) (fun i e he => by
      have := h (i + 1) e (by simpa using he)
      simpa [w2, Nat.add_assoc, Nat.add_comm 1 i] using this)
    obtain ⟨outs, w1, hrun, hlen, hfs, hfiles, hcalls⟩ := hrec
    refine ⟨out :: outs, w1, ?_, by simp [hlen], ?_, ?_, ?_⟩
    · simp only [findSubdomainsLoop, World.println, hout]
      simpa [w2, World.println] using hrun
    · simpa [w2, World.println] using hfs
    · simpa [w2, World.println] using hfiles
    · simpa [w2, World.println] using hcalls

theorem findSubdomainsLoop_fail (env : Env) (ds : List String) (w : World) (acc : List String)
    (j : Nat) (dj : String) (hj : ds[j]? = some dj)
    (hok : ∀ i d, i < j → ds[i]? = some d →
      (env.subfinder (w.calls.length + i) (Command "subfinder" ["-d", d])).isSome)
    (hfail : env.subfinder (w.calls.length + j) (Command "subfinder" ["-d", dj]) = none) :
    ∃ w1, findSubdomainsLoop env ds w acc = .fatal w1 ∧ w1.fs = w.fs ∧ w1.files = w.files ∧
      w1.calls = w.calls ++ (ds.take (j + 1)).map (fun d => ⟨Command "subfinder" ["-d", d], w.fs⟩) := by
  induction ds generalizing w acc j with
  | nil => simp at hj
  | cons d ds ih =>
    cases j with
    | zero =>
      simp only [List.getElem?_cons_zero, Option.some.injEq] at hj
      subst hj
      simp only [Nat.add_zero] at hfail
      refine ⟨{ w.println ("Running subfinder for domain: " ++ d) with
          calls := w.calls ++ [⟨Command "subfinder" ["-d", d], w.fs⟩] }, ?_, ?_, ?_, ?_⟩
      · simp only [findSubdomainsLoop, World.println, hfail]
      · simp [World.println]
      · simp [World.println]
      · simp [World.println]
    | succ j =>
      have h0 := hok 0 d (Nat.succ_pos j) (by simp)
      obtain ⟨out, hout⟩ := Option.isSome_iff_exists.mp h0
      simp only [Nat.add_zero] at hout
      let w2 : World :=
        { w.println ("Running subfinder for domain: " ++ d) with
          calls := w.calls ++ [⟨Command "subfinder" ["-d", d], w.fs⟩] }
      have hrec := ih w2 (acc ++ [out]) j (by simpa using hj)
        (fun i e hi he => by
          have := hok (i + 1) e (Nat.succ_lt_succ hi) (by simpa using he)
          simpa [w2, Nat.add_assoc, Nat.add_comm 1 i] using this)
        (by simpa [w2, Nat.add_assoc, Nat.add_comm 1 j] using hfail)
      obtain ⟨w1, hrun, hfs, hfiles, hcalls⟩ := hrec
      refine ⟨w1, ?_, ?_, ?_, ?_⟩
      · simp only [findSubdomainsLoop, World.println, hout]
        simpa [w2, World.println] using hrun
      · simpa [w2, World.println] using hfs
      · simpa [w2, World.println] using hfiles
      · simpa [w2, World.println] using hcalls

/-! ## Files and the two file-writing stages -/

theorem FS.write_same (fs : FS) (p c : String) : fs.write p c p = some c := by
  simp [FS.write]

theorem FS.write_other (fs : FS) (p c q : String) (h : q ≠ p) : fs.write p c q = fs q := by
  simp [FS.write, h]

theorem FS.remove_same (fs : FS) (p : String) : fs.remove p p = none := by
  simp [FS.remove]

theorem FS.remove_other (fs : FS) (p q : String) (h : q ≠ p) : fs.remove p q = fs q := by
  simp [FS.remove, h]

/-- A freshly created (empty) file holds, after one flushed write, what was written. -/
theorem FS.append_new (fs : FS) (p buf : String) :
    ((fs.write p "").append p buf) p = some buf := by
  simp [FS.append, FS.write]

theorem FS.append_new_other (fs : FS) (p buf q : String) (h : q ≠ p) :
    ((fs.write p "").append p buf) q = fs q := by
  simp [FS.append, FS.write, h]

theorem CreateTemp_eq_some (env : Env) (w : World) (pattern tmp : String) (w1 : World)
    (h : CreateTemp env w pattern = some (tmp, w1)) :
    env.tempName w.fs pattern = some tmp ∧ w.fs tmp = none ∧
      w1 = { (w.touch (.CreateTemp tmp)) with fs := w.fs.write tmp "" } := by
  unfold CreateTemp at h
  split at h
  · simp at h
  · rename_i name hname
    split at h
    · rename_i hnone
      simp only [Option.some.injEq, Prod.mk.injEq] at h
      obtain ⟨rfl, rfl⟩ := h
      exact ⟨hname, hnone, rfl⟩
    · simp at h

/-- Once its temporary file exists, `runFfuf` makes exactly one invocation, on a
file system in which that file holds the given hosts, one per line. -/
theorem runFfuf_call (env : Env) (w : World) (subdomains : List String)
    (fuzz2File outputFile tmpFile : String) (w1 : World)
    (htmp : CreateTemp env w "fuzz1-" = some (tmpFile, w1)) :
    ∃ c, (runFfuf env w subdomains fuzz2File outputFile).2.calls = w.calls ++ [c] ∧
      c.cmd = ffufCommand tmpFile fuzz2File outputFile ∧
      c.fs tmpFile = some (writeLines subdomains) := by
  obtain ⟨_, _, rfl⟩ := CreateTemp_eq_some env w _ _ _ htmp
  refine ⟨⟨ffufCommand tmpFile fuzz2File outputFile,
    (w.fs.write tmpFile "").append tmpFile (writeLines subdomains)⟩, ?_, rfl, ?_⟩
  · simp [runFfuf, htmp, World.remove, World.touch, World.println, World.flushLines,
      ffufCommand]
  · exact FS.append_new _ _ _

/-- Once its temporary file exists, `probeSubdomains` makes exactly one
invocation, whatever happens afterwards, on a file system in which that file
holds the candidates, each followed by a line feed. -/
theorem probeSubdomains_call (env : Env) (w : World) (subdomains : List String)
    (subdomainsFile tmpFile : String) (w1 : World)
    (htmp : CreateTemp env w "httpx-input-" = some (tmpFile, w1)) :
    ∃ c, (probeSubdomains env w subdomains subdomainsFile).world.calls = w.calls ++ [c] ∧
      c.cmd = httpxCommand tmpFile ∧
      c.fs = (w.fs.write tmpFile "").append tmpFile (writeLines subdomains) ∧
      c.fs tmpFile = some (writeLines subdomains) := by
  obtain ⟨_, _, rfl⟩ := CreateTemp_eq_some env w _ _ _ htmp
  refine ⟨⟨httpxCommand tmpFile,
    (w.fs.write tmpFile "").append tmpFile (writeLines subdomains)⟩, ?_, rfl, rfl, ?_⟩
  · simp only [probeSubdomains, htmp, World.touch, World.flushLines, httpxCommand]
    generalize (w.fs.write tmpFile "").append tmpFile (writeLines subdomains) = fsIn
    generalize env.httpx fsIn (Command "httpx" ["-l", tmpFile, "-o", tmpFile ++ "-live"]) = r
    obtain ⟨ok, fs3⟩ := r
    cases ok with
    | false => simp [Result.world]
    | true =>
      cases hlive : fs3 (tmpFile ++ "-live") with
      | none => simp [Result.world, hlive]
      | some liveContent =>
        cases hscan : (ScanLines liveContent).2 with
        | true => simp [Result.world, hlive, hscan]
        | false =>
          by_cases hsf : subdomainsFile = ""
          · simp [Result.world, hlive, hscan, hsf, World.remove, World.touch]
          · cases hc : env.canCreate fs3 subdomainsFile with
            | false => simp [Result.world, hlive, hscan, hsf, Create, hc]
            | true =>
              simp [Result.world, hlive, hscan, hsf, Create, hc, World.remove, World.touch,
                World.flushLines]
  · exact FS.append_new _ _ _

/-- What a normal return of `probeSubdomains` tells: the temporary file was
created, `httpx` succeeded and left a result file, the returned hosts are the
scanned lines of that file, the temporary input file is gone, the result file
is still there, and a requested output file other than the temporary file holds
the returned hosts, one per line. -/
theorem probeSubdomains_ok_inv (env : Env) (w : World) (subdomains : List String)
    (subdomainsFile : String) (live : List String) (w2 : World)
    (hrun : probeSubdomains env w subdomains subdomainsFile = .ok live w2) :
    ∃ tmpFile w1 resultContent,
      CreateTemp env w "httpx-input-" = some (tmpFile, w1) ∧
      (env.httpx ((w.fs.write tmpFile "").append tmpFile (writeLines subdomains))
        (httpxCommand tmpFile)).2 (tmpFile ++ "-live") = some resultContent ∧
      ScanLines resultContent = (live, false) ∧
      w2.fs tmpFile = none ∧
      (w2.fs (tmpFile ++ "-live")).isSome ∧
      (subdomainsFile ≠ "" → subdomainsFile ≠ tmpFile →
        w2.fs subdomainsFile = some (writeLines live)) := by
  cases htmp : CreateTemp env w "httpx-input-" with
  | none => simp [probeSubdomains, htmp] at hrun
  | some tw =>
    obtain ⟨tmpFile, w1⟩ := tw
    obtain ⟨_, _, hw1⟩ := CreateTemp_eq_some env w _ _ _ htmp
    refine ⟨tmpFile, w1, ?_⟩
    subst hw1
    simp only [probeSubdomains, htmp, World.touch, World.flushLines] at hrun
    simp only [httpxCommand]
    revert hrun
    generalize (w.fs.write tmpFile "").append tmpFile (writeLines subdomains) = fsIn
    generalize env.httpx fsIn (Command "httpx" ["-l", tmpFile, "-o", tmpFile ++ "-live"]) = r
    obtain ⟨ok, fs3⟩ := r
    intro hrun
    have hne : tmpFile ++ "-live" ≠ tmpFile := by
      intro h
      have := congrArg String.length h
      simp only [String.length_append] at this
      have h5 : "-live".length = 5 := by decide
      omega
    cases ok with
    | false => simp at hrun
    | true =>
      cases hlive : fs3 (tmpFile ++ "-live") with
      | none => simp [hlive] at hrun
      | some liveContent =>
        cases hscan : (ScanLines liveContent).2 with
        | true => simp [hlive, hscan] at hrun
        | false =>
          have hpair : ScanLines liveContent = ((ScanLines liveContent).1, false) := by
            rw [← hscan]
          by_cases hsf : subdomainsFile = ""
          · simp only [hlive, hscan, hsf, ne_eq, not_true_eq_false, if_false,
              Bool.false_eq_true, Result.ok.injEq] at hrun
            obtain ⟨rfl, rfl⟩ := hrun
            refine ⟨liveContent, trivial, hlive, hpair, ?_, ?_, ?_⟩
            · simp [World.remove, FS.remove]
            · simp [World.remove, FS.remove, hne, hlive]
            · intro h
              exact absurd hsf h
          · cases hc : env.canCreate fs3 subdomainsFile with
            | false => simp [hlive, hscan, hsf, Create, hc] at hrun
            | true =>
              simp only [hlive, hscan, hsf, Create, hc, World.touch, World.flushLines, ne_eq,
                not_false_eq_true, if_true, Bool.false_eq_true, if_false,
                Result.ok.injEq] at hrun
              obtain ⟨rfl, rfl⟩ := hrun
              refine ⟨liveContent, trivial, hlive, hpair, ?_, ?_, ?_⟩
              · simp [World.remove, FS.remove]
              · simp only [World.remove, World.touch, FS.remove_other _ _ _ hne]
                by_cases hq : tmpFile ++ "-live" = subdomainsFile
                · rw [hq, FS.append_new]
                  rfl
                · rw [FS.append_new_other _ _ _ _ hq, hlive]
                  rfl
              · intro _ hst
                simp only [World.remove, World.touch, FS.remove_other _ _ _ hst]
                exact FS.append_new _ _ _

/-! ## Flag parsing -/

theorem assign_get (cl cl1 : CommandLine) (n v m : String)
    (h : cl.assign n v = some cl1) (hne : n ≠ m) : cl1.get m = cl.get m := by
  unfold CommandLine.assign at h
  split_ifs at h with h1 h2 h3 h4 <;> simp only [Option.some.injEq] at h <;> subst h
  · subst h1; simp [CommandLine.get, Ne.symm hne]
  · subst h2; simp [CommandLine.get, Ne.symm hne]
  · subst h3; simp [CommandLine.get, Ne.symm hne]
  · subst h4; simp [CommandLine.get, Ne.symm hne]

theorem isFlag_false (m s name : String) (value : Option String)
    (hs : parseArg s = .flag name value) (h : isFlag m s = false) : name ≠ m := by
  simpa [isFlag, hs] using h

theorem isFlag_true (m s name : String) (value : Option String)
    (hs : parseArg s = .flag name value) (h : name = m) : isFlag m s = true := by
  simpa [isFlag, hs] using h

theorem undeclared_ne_ok (name : String) (cl : CommandLine) : undeclared name ≠ .ok cl := by
  unfold undeclared
  split <;> simp

theorem undeclared_help (name : String) (h : undeclared name = .help) :
    name = "help" ∨ name = "h" := by
  unfold undeclared at h
  split at h
  · assumption
  · simp at h

/-- Parsing leaves a flag unset that no argument names. -/
theorem Parse_keeps (m : String) (args : List String) (cl cl2 : CommandLine)
    (hg : given m args = false) (hp : Parse args cl = .ok cl2) : cl2.get m = cl.get m := by
  induction args, cl using Parse.induct with
  | case1 cl => simp [Parse] at hp; rw [hp]
  | case2 s cl hs => simp [Parse, hs] at hp; rw [hp]
  | case3 s cl hs => simp [Parse, hs] at hp
  | case4 s cl name value hs ha => simp [Parse, hs, ha, undeclared_ne_ok] at hp
  | case5 s cl name value hs cl1 ha =>
    simp [Parse, hs, ha] at hp
    subst hp
    have hf : isFlag m s = false := by simpa [given] using hg
    exact assign_get _ _ _ _ _ ha (isFlag_false m s name _ hs hf)
  | case6 s cl name hs ha => simp [Parse, hs, ha, undeclared_ne_ok] at hp
  | case7 s cl name hs cl1 ha => simp [Parse, hs, ha] at hp
  | case8 s v rest cl hs => simp [Parse, hs] at hp; rw [hp]
  | case9 s v rest cl hs => simp [Parse, hs] at hp
  | case10 s v rest cl name value hs ha => simp [Parse, hs, ha, undeclared_ne_ok] at hp
  | case11 s v rest cl name value hs cl1 ha ih =>
    simp only [Parse, hs, ha] at hp
    have hg' : isFlag m s = false ∧ given m (v :: rest) = false := by
      simpa [given, List.any_cons] using hg
    rw [ih hg'.2 hp]
    exact assign_get _ _ _ _ _ ha (isFlag_false m s name _ hs hg'.1)
  | case12 s v rest cl name hs ha => simp [Parse, hs, ha, undeclared_ne_ok] at hp
  | case13 s v rest cl name hs cl1 ha ih =>
    simp only [Parse, hs, ha] at hp
    have hg' : isFlag m s = false ∧ isFlag m v = false ∧ given m rest = false := by
      simpa [given, List.any_cons] using hg
    rw [ih hg'.2.2 hp]
    exact assign_get _ _ _ _ _ ha (isFlag_false m s name _ hs hg'.1)

/-- Parsing ends in `flag.ErrHelp` only when some argument is `-h` or `-help`. -/
theorem Parse_help (args : List String) (cl : CommandLine) (hp : Parse args cl = .help) :
    given "h" args = true ∨ given "help" args = true := by
  induction args, cl using Parse.induct with
  | case1 cl => simp [Parse] at hp
  | case2 s cl hs => simp [Parse, hs] at hp
  | case3 s cl hs => simp [Parse, hs] at hp
  | case4 s cl name value hs ha =>
    simp only [Parse, hs, ha] at hp
    rcases undeclared_help name hp with h | h
    · exact Or.inr (by simp [given, isFlag_true _ s name _ hs h])
    · exact Or.inl (by simp [given, isFlag_true _ s name _ hs h])
  | case5 s cl name value hs cl1 ha => simp [Parse, hs, ha] at hp
  | case6 s cl name hs ha =>
    simp only [Parse, hs, ha] at hp
    rcases undeclared_help name hp with h | h
    · exact Or.inr (by simp [given, isFlag_true _ s name _ hs h])
    · exact Or.inl (by simp [given, isFlag_true _ s name _ hs h])
  | case7 s cl name hs cl1 ha => simp [Parse, hs, ha] at hp
  | case8 s v rest cl hs => simp [Parse, hs] at hp
  | case9 s v rest cl hs => simp [Parse, hs] at hp
  | case10 s v rest cl name value hs ha =>
    simp only [Parse, hs, ha] at hp
    rcases undeclared_help name hp with h | h
    · exact Or.inr (by simp [given, isFlag_true _ s name _ hs h])
    · exact Or.inl (by simp [given, isFlag_true _ s name _ hs h])
  | case11 s v rest cl name value hs cl1 ha ih =>
    simp only [Parse, hs, ha] at hp
    rcases ih hp with h | h
    · exact Or.inl (by simp only [given, List.any_cons] at h ⊢; simp [h])
    · exact Or.inr (by simp only [given, List.any_cons] at h ⊢; simp [h])
  | case12 s v rest cl name hs ha =>
    simp only [Parse, hs, ha] at hp
    rcases undeclared_help name hp with h | h
    · exact Or.inr (by simp [given, isFlag_true _ s name _ hs h])
    · exact Or.inl (by simp [given, isFlag_true _ s name _ hs h])
  | case13 s v rest cl name hs cl1 ha ih =>
    simp only [Parse, hs, ha] at hp
    rcases ih hp with h | h
    · exact Or.inl (by simp only [given, List.any_cons] at h ⊢; simp [h])
    · exact Or.inr (by simp only [given, List.any_cons] at h ⊢; simp [h])

/-! ## Claims on the enumeration stage and on `main` -/

/-- C3, as stated, fails: on a domains file holding `a.com`, an empty line and
`b.com`, `findSubdomains` runs `subfinder -d` three times, the second time with
the empty string as domain, while the file has two non-empty lines. -/
theorem findSubdomains_blank_line_counterexample :
    (findSubdomains stubEnv (World.start blankLineFS) "domains.txt").world.calls.map
        (fun c => c.cmd.Args)
      = [["subfinder", "-d", "a.com"], ["subfinder", "-d", ""], ["subfinder", "-d", "b.com"]]
    ∧ (findSubdomains stubEnv (World.start blankLineFS) "domains.txt").world.calls.map
        (fun c => c.cmd.Args.getD 2 "")
      ≠ (fileLines "a.com\n\nb.com\n").filter (fun l => l ≠ "") := by
  decide

/-- C3, amended: for a readable domains file (every line fits the scanner's
buffer) on which every enumeration call succeeds, `findSubdomains` returns, and
the invocations it makes are exactly one `subfinder -d <line>` per line of the
file, in file order, empty lines included, each line taken without its line
terminator. -/
theorem findSubdomains_invokes_every_line (env : Env) (w : World)
    (domainsFile content : String)
    (hread : w.fs domainsFile = some content)
    (hshort : ∀ l ∈ fileLines content, l.utf8ByteSize < MaxScanTokenSize)
    (hsub : ∀ i l, (fileLines content)[i]? = some l →
      (env.subfinder (w.calls.length + i) (Command "subfinder" ["-d", stripCR l])).isSome) :
    ∃ subdomains w1, findSubdomains env w domainsFile = .ok subdomains w1 ∧
      subdomains.length = (fileLines content).length ∧
      w1.calls = w.calls ++
        (fileLines content).map (fun l => ⟨Command "subfinder" ["-d", stripCR l], w.fs⟩) := by
  have hscan := ScanLines_short content hshort
  have hloop := findSubdomainsLoop_ok env ((fileLines content).map stripCR)
    (w.touch (.Open domainsFile)) [] (fun i d hd => by
      simp only [List.getElem?_map, Option.map_eq_some'] at hd
      obtain ⟨l, hl, rfl⟩ := hd
      simpa [World.touch] using hsub i l hl)
  obtain ⟨outs, w1, hrun, hlen, _, _, hcalls⟩ := hloop
  refine ⟨outs, w1, ?_, by simpa using hlen, ?_⟩
  · simp only [findSubdomains, World.touch, hread, hscan]
    simp only [World.touch, List.nil_append] at hrun
    simp [hrun]
  · simpa [World.touch, List.map_map, Function.comp_def] using hcalls

theorem findSubdomains_invokes_every_line_witness :
    ∃ subdomains w1,
      findSubdomains stubEnv (World.start blankLineFS) "domains.txt" = .ok subdomains w1 ∧
      subdomains.length = (fileLines "a.com\n\nb.com\n").length ∧
      w1.calls = (World.start blankLineFS).calls ++
        (fileLines "a.com\n\nb.com\n").map
          (fun l => ⟨Command "subfinder" ["-d", stripCR l], (World.start blankLineFS).fs⟩) :=
  findSubdomains_invokes_every_line stubEnv (World.start blankLineFS) "domains.txt"
    "a.com\n\nb.com\n" rfl (by decide) (fun _ _ _ => rfl)

/-- C7: when the command line parses, the domains file is readable and the invocation of `subfinder` for
its line number `j + 1` fails, the earlier ones having succeeded, `main` ends
with exit status 1 and the external invocations of the whole run are exactly the
`j + 1` runs of `subfinder` for the first `j + 1` lines: `httpx` and `ffuf` are
never started. -/
theorem main_aborts_when_enumeration_fails (env : Env) (fs : FS) (args : List String)
    (cl : CommandLine) (domainsFile fuzz2File content dj : String) (j : Nat)
    (hparse : Parse args noFlags = .ok cl)
    (hd : cl.d = some domainsFile) (hdne : domainsFile ≠ "")
    (hf : cl.f = some fuzz2File) (hfne : fuzz2File ≠ "")
    (hread : fs domainsFile = some content)
    (hj : (ScanLines content).1[j]? = some dj)
    (hok : ∀ i d, i < j → (ScanLines content).1[i]? = some d →
      (env.subfinder i (Command "subfinder" ["-d", d])).isSome)
    (hfail : env.subfinder j (Command "subfinder" ["-d", dj]) = none) :
    (main env fs args).1 = 1 ∧
    (main env fs args).2.calls =
      ((ScanLines content).1.take (j + 1)).map (fun d => ⟨Command "subfinder" ["-d", d], fs⟩) ∧
    (main env fs args).2.calls.length = j + 1 ∧
    ∀ c ∈ (main env fs args).2.calls, c.cmd.Path = "subfinder" := by
  have hloop := findSubdomainsLoop_fail env (ScanLines content).1
    ((World.start fs).touch (.Open domainsFile)) [] j dj hj
    (fun i d hi hdi => by simpa [World.touch, World.start] using hok i d hi hdi)
    (by simpa [World.touch, World.start] using hfail)
  obtain ⟨w1, hrun, _, _, hcalls⟩ := hloop
  have hfind : findSubdomains env (World.start fs) domainsFile = .fatal w1 := by
    simp only [findSubdomains, World.touch, World.start, hread]
    simp only [World.touch, World.start, List.nil_append] at hrun
    simp [hrun]
  have hmain : main env fs args = (1, w1) := by
    simp [main, hparse, hd, hf, hdne, hfne, hfind]
  have hlt : j < (ScanLines content).1.length := by
    rcases List.getElem?_eq_some.mp hj with ⟨h, _⟩
    exact h
  have hcalls1 : w1.calls =
      ((ScanLines content).1.take (j + 1)).map
        (fun d => ⟨Command "subfinder" ["-d", d], fs⟩) := by
    simpa [World.touch, World.start] using hcalls
  rw [hmain]
  refine ⟨rfl, hcalls1, ?_, ?_⟩
  · simp only [hcalls1, List.length_map, List.length_take]
    omega
  · intro c hc
    simp only [hcalls1, List.mem_map] at hc
    obtain ⟨d, _, rfl⟩ := hc
    rfl

theorem main_aborts_when_enumeration_fails_witness :
    (main secondFailsEnv twoDomainsFS ["-d", "domains.txt", "-f", "words.txt"]).1 = 1 ∧
    (main secondFailsEnv twoDomainsFS ["-d", "domains.txt", "-f", "words.txt"]).2.calls =
      ((ScanLines "one.com\ntwo.com\n").1.take (1 + 1)).map
        (fun d => ⟨Command "subfinder" ["-d", d], twoDomainsFS⟩) ∧
    (main secondFailsEnv twoDomainsFS
      ["-d", "domains.txt", "-f", "words.txt"]).2.calls.length = 1 + 1 ∧
    ∀ c ∈ (main secondFailsEnv twoDomainsFS
      ["-d", "domains.txt", "-f", "words.txt"]).2.calls, c.cmd.Path = "subfinder" :=
  main_aborts_when_enumeration_fails secondFailsEnv twoDomainsFS
    ["-d", "domains.txt", "-f", "words.txt"]
    ⟨some "domains.txt", none, some "words.txt", none⟩ "domains.txt" "words.txt"
    "one.com\ntwo.com\n" "two.com" 1 (by decide) rfl (by decide) rfl (by decide) rfl (by decide)
    (fun i _ hi _ => by
      have h0 : i = 0 := by omega
      subst h0
      rfl)
    rfl

/-- C8, as stated, fails: on the command line `-h`, which gives neither `-d`
nor `-f`, flag parsing ends the program with exit status 0. -/
theorem main_help_counterexample :
    given "d" ["-h"] = false ∧ given "f" ["-h"] = false ∧
    (main stubEnv stubFS ["-h"]).1 = 0 := by
  decide

/-- C8, amended: when no argument of the command line is the flag `-d`, or
none is the flag `-f`, `main` ends in the state it started in: no external tool
has been invoked, no file has been opened, created or removed, and the file
system is unchanged.  Its exit status is 0, 1 or 2, and it is non-zero whenever
no argument is `-h` or `-help`. -/
theorem main_requires_d_and_f (env : Env) (fs : FS) (args : List String)
    (h : given "d" args = false ∨ given "f" args = false) :
    (main env fs args).2.calls = [] ∧
    (main env fs args).2.files = [] ∧ (main env fs args).2.fs = fs ∧
    (main env fs args).1 ≤ 2 ∧
    (given "h" args = false → given "help" args = false → (main env fs args).1 ≠ 0) := by
  cases hp : Parse args noFlags with
  | help =>
    refine ⟨by simp [main, hp, World.start], by simp [main, hp, World.start],
      by simp [main, hp, World.start], by simp [main, hp], fun h1 h2 => ?_⟩
    rcases Parse_help args noFlags hp with e | e
    · rw [h1] at e
      exact absurd e (by decide)
    · rw [h2] at e
      exact absurd e (by decide)
  | failed => simp [main, hp, World.start]
  | ok cl =>
    have hmiss : cl.d.getD "" = "" ∨ cl.f.getD "" = "" := by
      rcases h with h | h
      · have := Parse_keeps "d" args noFlags cl h hp
        simp only [CommandLine.get, noFlags, if_true] at this
        exact Or.inl (by rw [this]; rfl)
      · have := Parse_keeps "f" args noFlags cl h hp
        have hf : cl.f = none := by simpa [CommandLine.get, noFlags] using this
        exact Or.inr (by rw [hf]; rfl)
    simp [main, hp, hmiss, World.start]

theorem main_requires_d_and_f_witness :
    ((main stubEnv stubFS ["-f", "words.txt", "-o", "out.json"]).2.calls = [] ∧
      (main stubEnv stubFS ["-f", "words.txt", "-o", "out.json"]).2.files = [] ∧
      (main stubEnv stubFS ["-f", "words.txt", "-o", "out.json"]).2.fs = stubFS ∧
      (main stubEnv stubFS ["-f", "words.txt", "-o", "out.json"]).1 ≤ 2 ∧
      (given "h" ["-f", "words.txt", "-o", "out.json"] = false →
        given "help" ["-f", "words.txt", "-o", "out.json"] = false →
        (main stubEnv stubFS ["-f", "words.txt", "-o", "out.json"]).1 ≠ 0)) ∧
    (main stubEnv stubFS ["-f", "words.txt", "-o", "out.json"]).1 = 1 :=
  ⟨main_requires_d_and_f stubEnv stubFS ["-f", "words.txt", "-o", "out.json"]
      (Or.inl (by decide)),
    by decide⟩

/-! ## Claims on the probing and fuzzing stages -/

/-- C1: whenever `runFfuf` has created its temporary file `tmpFile`, it starts
`ffuf` exactly once, with the arguments `-w tmpFile:FUZZ1 -w fuzz2File:FUZZ2
-u https://FUZZ1FUZZ2 -mode clusterbomb -mc 200,403 -c`, followed by
`-o outputFile` when the output path is non-empty and by nothing when it is
empty. -/
theorem runFfuf_arguments (env : Env) (w : World) (subdomains : List String)
    (fuzz2File outputFile tmpFile : String) (w1 : World)
    (htmp : CreateTemp env w "fuzz1-" = some (tmpFile, w1)) :
    ∃ c, (runFfuf env w subdomains fuzz2File outputFile).2.calls = w.calls ++ [c] ∧
      c.cmd.Path = "ffuf" ∧
      c.cmd.Args = "ffuf" :: (["-w", tmpFile ++ ":FUZZ1", "-w", fuzz2File ++ ":FUZZ2",
        "-u", "https://FUZZ1FUZZ2", "-mode", "clusterbomb", "-mc", "200,403", "-c"]
        ++ (if outputFile = "" then [] else ["-o", outputFile])) := by
  obtain ⟨c, hcalls, hcmd, _⟩ :=
    runFfuf_call env w subdomains fuzz2File outputFile tmpFile w1 htmp
  refine ⟨c, hcalls, ?_, ?_⟩
  · rw [hcmd]
    unfold ffufCommand
    split <;> rfl
  · rw [hcmd]
    by_cases ho : outputFile = ""
    · simp [ffufCommand, ho, Command]
    · simp [ffufCommand, ho, Command]

theorem runFfuf_arguments_witness :
    ∃ c, (runFfuf stubEnv (World.start stubFS) ["a.example.com"] "words.txt" "out.json").2.calls
        = (World.start stubFS).calls ++ [c] ∧
      c.cmd.Path = "ffuf" ∧
      c.cmd.Args = "ffuf" :: (["-w", "/tmp/fuzz1-1" ++ ":FUZZ1", "-w", "words.txt" ++ ":FUZZ2",
        "-u", "https://FUZZ1FUZZ2", "-mode", "clusterbomb", "-mc", "200,403", "-c"]
        ++ (if "out.json" = "" then [] else ["-o", "out.json"])) :=
  runFfuf_arguments stubEnv (World.start stubFS) ["a.example.com"] "words.txt" "out.json"
    "/tmp/fuzz1-1" _ rfl

/-- C2: in every run in which the command line parses, enumeration and probing return and the fuzzing
stage gets its temporary file `tmpFile`, the run's external invocations end with
one `httpx` run followed by one `ffuf` run; `ffuf` is given `tmpFile:FUZZ1`, and
on the file system it is started on `tmpFile` holds exactly the hosts scanned
from the result file `httpx` left behind, each followed by one line feed, so
that the lines of `tmpFile` are those hosts in the same order. -/
theorem main_fuzz1_file_holds_live_hosts (env : Env) (fs : FS) (args : List String)
    (cl : CommandLine)
    (subdomains : List String) (w1 : World) (live : List String) (w2 : World)
    (tmpFile : String) (w3 : World)
    (hparse : Parse args noFlags = .ok cl)
    (hd : cl.d.getD "" ≠ "") (hf : cl.f.getD "" ≠ "")
    (henum : findSubdomains env (World.start fs) (cl.d.getD "") = .ok subdomains w1)
    (hprobe : probeSubdomains env w1 subdomains (cl.s.getD "subdomains.txt") = .ok live w2)
    (htmp : CreateTemp env w2 "fuzz1-" = some (tmpFile, w3)) :
    ∃ h c resultContent,
      (main env fs args).2.calls =
        (findSubdomains env (World.start fs) (cl.d.getD "")).world.calls ++ [h, c] ∧
      h.cmd.Path = "httpx" ∧
      (env.httpx h.fs h.cmd).2 (h.cmd.Args.getD 4 "") = some resultContent ∧
      (ScanLines resultContent).2 = false ∧
      c.cmd.Path = "ffuf" ∧
      c.cmd.Args.take 3 = ["ffuf", "-w", tmpFile ++ ":FUZZ1"] ∧
      c.fs tmpFile = some (writeLines (ScanLines resultContent).1) ∧
      (c.fs tmpFile).map fileLines = some (ScanLines resultContent).1 := by
  obtain ⟨tmp1, w1t, resultContent, htmp1, hres, hscan, _, _, _⟩ :=
    probeSubdomains_ok_inv env w1 subdomains _ live w2 hprobe
  obtain ⟨h, hcallsH, hcmdH, hfsH, _⟩ :=
    probeSubdomains_call env w1 subdomains (cl.s.getD "subdomains.txt") tmp1 w1t htmp1
  obtain ⟨c, hcallsC, hcmdC, hfsC⟩ :=
    runFfuf_call env w2 live (cl.f.getD "") (cl.o.getD "") tmpFile w3 htmp
  have hlive : live = (ScanLines resultContent).1 := by rw [hscan]
  have hmain : (main env fs args).2 = (runFfuf env w2 live (cl.f.getD "") (cl.o.getD "")).2 := by
    rcases hr : runFfuf env w2 live (cl.f.getD "") (cl.o.getD "") with ⟨b, w4⟩
    cases b <;> simp [main, hparse, hd, hf, henum, hprobe, hr]
  rw [hprobe] at hcallsH
  simp only [Result.world] at hcallsH
  refine ⟨h, c, resultContent, ?_, ?_, ?_, ?_, ?_, ?_, ?_, ?_⟩
  · rw [hmain, hcallsC, hcallsH, henum]
    simp [Result.world]
  · rw [hcmdH]
    rfl
  · rw [hcmdH, hfsH]
    exact hres
  · rw [hscan]
  · rw [hcmdC]
    unfold ffufCommand
    split <;> rfl
  · rw [hcmdC]
    unfold ffufCommand
    split <;> rfl
  · rw [hfsC, hlive]
  · rw [hfsC, hlive]
    simp only [Option.map_some']
    rw [fileLines_writeLines _ (ScanLines_no_lf resultContent)]

theorem main_fuzz1_file_holds_live_hosts_witness :
    (∃ h c resultContent,
      (main stubEnv stubFS ["-d", "domains.txt", "-f", "words.txt"]).2.calls =
        (findSubdomains stubEnv (World.start stubFS)
          ((⟨some "domains.txt", none, some "words.txt", none⟩ : CommandLine).d.getD "")).world.calls
          ++ [h, c] ∧
      h.cmd.Path = "httpx" ∧
      (stubEnv.httpx h.fs h.cmd).2 (h.cmd.Args.getD 4 "") = some resultContent ∧
      (ScanLines resultContent).2 = false ∧
      c.cmd.Path = "ffuf" ∧
      c.cmd.Args.take 3 = ["ffuf", "-w", "/tmp/fuzz1-1" ++ ":FUZZ1"] ∧
      c.fs "/tmp/fuzz1-1" = some (writeLines (ScanLines resultContent).1) ∧
      (c.fs "/tmp/fuzz1-1").map fileLines = some (ScanLines resultContent).1) ∧
    (main stubEnv stubFS ["-d", "domains.txt", "-f", "words.txt"]).2.calls.map
        (fun c => (c.cmd.Path, c.fs "/tmp/fuzz1-1"))
      = [("subfinder", none), ("httpx", none), ("ffuf", some "a.example.com\n")] :=
  ⟨main_fuzz1_file_holds_live_hosts stubEnv stubFS ["-d", "domains.txt", "-f", "words.txt"]
      ⟨some "domains.txt", none, some "words.txt", none⟩ _ _ _ _ "/tmp/fuzz1-1" _
      (by decide) (by decide) (by decide) rfl rfl rfl,
    by decide⟩

/-- C4, as stated, fails: for the single candidate `a.example.com\nb.example.com`
(the raw output of one enumeration call) the temporary input file `httpx` is
started on has two lines, not one, and its first line is not the candidate. -/
theorem probeSubdomains_multiline_counterexample :
    (probeSubdomains stubEnv (World.start stubFS) ["a.example.com\nb.example.com"]
        "").world.calls.map (fun c => (c.fs "/tmp/httpx-input-1").map fileLines)
      = [some ["a.example.com", "b.example.com"]]
    ∧ (probeSubdomains stubEnv (World.start stubFS) ["a.example.com\nb.example.com"]
        "").world.calls.map (fun c => (c.fs "/tmp/httpx-input-1").map fileLines)
      ≠ [some ["a.example.com\nb.example.com"]] := by
  decide

/-- C4, amended: whenever `probeSubdomains` has created its temporary input
file `tmpFile`, it starts `httpx -l tmpFile -o tmpFile-live` exactly once, on a
file system in which `tmpFile` holds the candidates in order, each followed by
one line feed; if no candidate contains a line feed, the file has exactly one
line per candidate and its lines are the candidates in order. -/
theorem probeSubdomains_input_file (env : Env) (w : World) (subdomains : List String)
    (subdomainsFile tmpFile : String) (w1 : World)
    (htmp : CreateTemp env w "httpx-input-" = some (tmpFile, w1)) :
    ∃ c, (probeSubdomains env w subdomains subdomainsFile).world.calls = w.calls ++ [c] ∧
      c.cmd = Command "httpx" ["-l", tmpFile, "-o", tmpFile ++ "-live"] ∧
      c.fs tmpFile = some (writeLines subdomains) ∧
      ((∀ s ∈ subdomains, '\n' ∉ s.data) →
        (c.fs tmpFile).map fileLines = some subdomains) := by
  obtain ⟨c, hcalls, hcmd, _, hfs⟩ :=
    probeSubdomains_call env w subdomains subdomainsFile tmpFile w1 htmp
  refine ⟨c, hcalls, hcmd, hfs, fun hlf => ?_⟩
  rw [hfs]
  simp only [Option.map_some']
  rw [fileLines_writeLines _ hlf]

theorem probeSubdomains_input_file_witness :
    ∃ c, (probeSubdomains stubEnv (World.start stubFS) ["a.example.com", "b.example.com"]
        "live.txt").world.calls = (World.start stubFS).calls ++ [c] ∧
      c.cmd = Command "httpx" ["-l", "/tmp/httpx-input-1", "-o", "/tmp/httpx-input-1" ++ "-live"] ∧
      c.fs "/tmp/httpx-input-1" = some (writeLines ["a.example.com", "b.example.com"]) ∧
      ((∀ s ∈ ["a.example.com", "b.example.com"], '\n' ∉ s.data) →
        (c.fs "/tmp/httpx-input-1").map fileLines = some ["a.example.com", "b.example.com"]) :=
  probeSubdomains_input_file stubEnv (World.start stubFS) ["a.example.com", "b.example.com"]
    "live.txt" "/tmp/httpx-input-1" _ rfl

/-- C5, as stated, fails: when the output path `p` is the very name the stage
draws for its temporary input file (`p` not existing beforehand),
`probeSubdomains` returns the live host and `p` does not exist afterwards: the
hosts written to it are deleted by the deferred `os.Remove`. -/
theorem probeSubdomains_output_is_temp_counterexample :
    stubEnv.tempName stubFS "httpx-input-" = some "/tmp/httpx-input-1" ∧
    ∃ live w,
      probeSubdomains stubEnv (World.start stubFS) ["a.example.com"] "/tmp/httpx-input-1"
        = .ok live w ∧
      live = ["a.example.com"] ∧
      w.fs "/tmp/httpx-input-1" = none ∧
      w.fs "/tmp/httpx-input-1" ≠ some "a.example.com\n" :=
  ⟨by decide, _, _, rfl, by decide, by decide, by decide⟩

/-- C5, amended: when `probeSubdomains` returns for a non-empty output path `p`
which is not the name the stage draws for its temporary input file, the file
`p` afterwards holds exactly the returned hosts in order, each followed by one
line feed and nothing else, whatever it held before: its lines are the returned
hosts.  Every further run of the stage that returns the same hosts leaves `p`
with the same content. -/
theorem probeSubdomains_saves_live_hosts (env : Env) (w : World) (subdomains : List String)
    (p : String) (live : List String) (w1 : World)
    (hp : p ≠ "") (hfresh : env.tempName w.fs "httpx-input-" ≠ some p)
    (hrun : probeSubdomains env w subdomains p = .ok live w1) :
    w1.fs p = some (writeLines live) ∧
    (w1.fs p).map String.data = some (joinLines live) ∧
    (w1.fs p).map fileLines = some live ∧
    ∀ (env2 : Env) (subdomains2 : List String) (w2 : World),
      probeSubdomains env2 w1 subdomains2 p = .ok live w2 → w2.fs p = w1.fs p := by
  obtain ⟨tmp, wt, rc, htmp, _, hscan, _, _, hsave⟩ :=
    probeSubdomains_ok_inv env w subdomains p live w1 hrun
  obtain ⟨hname, _, _⟩ := CreateTemp_eq_some env w _ _ _ htmp
  have hne : p ≠ tmp := fun e => hfresh (by rw [hname, e])
  have hfirst := hsave hp hne
  have hlive : live = (ScanLines rc).1 := by rw [hscan]
  have hlf : ∀ s ∈ live, '\n' ∉ s.data := by
    rw [hlive]
    exact ScanLines_no_lf rc
  refine ⟨hfirst, ?_, ?_, fun env2 subdomains2 w2 hrun2 => ?_⟩
  · rw [hfirst]
    simp only [Option.map_some', writeLines_data]
  · rw [hfirst]
    simp only [Option.map_some']
    rw [fileLines_writeLines _ hlf]
  · obtain ⟨tmp2, wt2, _, htmp2, _, _, _, _, hsave2⟩ :=
      probeSubdomains_ok_inv env2 w1 subdomains2 p live w2 hrun2
    obtain ⟨_, hnone2, _⟩ := CreateTemp_eq_some env2 w1 _ _ _ htmp2
    have hne2 : p ≠ tmp2 := fun e => by
      rw [← e, hfirst] at hnone2
      simp at hnone2
    rw [hsave2 hp hne2, hfirst]

theorem probeSubdomains_saves_live_hosts_witness :
    ((probeSubdomains stubEnv (World.start stubFS) ["a.example.com", "b.example.com"]
        "subdomains.txt").world.fs "subdomains.txt" = some (writeLines ["a.example.com"]) ∧
    ((probeSubdomains stubEnv (World.start stubFS) ["a.example.com", "b.example.com"]
        "subdomains.txt").world.fs "subdomains.txt").map String.data
      = some (joinLines ["a.example.com"]) ∧
    ((probeSubdomains stubEnv (World.start stubFS) ["a.example.com", "b.example.com"]
        "subdomains.txt").world.fs "subdomains.txt").map fileLines = some ["a.example.com"] ∧
    ∀ (env2 : Env) (subdomains2 : List String) (w2 : World),
      probeSubdomains env2
        (probeSubdomains stubEnv (World.start stubFS) ["a.example.com", "b.example.com"]
          "subdomains.txt").world subdomains2 "subdomains.txt" = .ok ["a.example.com"] w2 →
      w2.fs "subdomains.txt" =
        (probeSubdomains stubEnv (World.start stubFS) ["a.example.com", "b.example.com"]
          "subdomains.txt").world.fs "subdomains.txt") ∧
    stubFS "subdomains.txt" = some "old.example.com\n" ∧
    (probeSubdomains stubEnv (World.start stubFS) ["a.example.com", "b.example.com"]
        "subdomains.txt").world.fs "subdomains.txt" = some "a.example.com\n" :=
  ⟨probeSubdomains_saves_live_hosts stubEnv (World.start stubFS)
      ["a.example.com", "b.example.com"] "subdomains.txt" ["a.example.com"] _
      (by decide) (by decide) rfl,
    rfl, by decide⟩

/-- C6, evaluated: on the command line `-d domains.txt -f words.txt`, without
`-s`, a run that ends with exit status 0 has created `subdomains.txt` anew: the
file, which held `old.example.com` before, holds the live host afterwards. -/
theorem main_overwrites_default_subdomains_file :
    given "s" ["-d", "domains.txt", "-f", "words.txt"] = false ∧
    stubFS "subdomains.txt" = some "old.example.com\n" ∧
    (main stubEnv stubFS ["-d", "domains.txt", "-f", "words.txt"]).1 = 0 ∧
    (main stubEnv stubFS ["-d", "domains.txt", "-f", "words.txt"]).2.fs
      "subdomains.txt" = some "a.example.com\n" ∧
    FileOp.Create "subdomains.txt" ∈
      (main stubEnv stubFS ["-d", "domains.txt", "-f", "words.txt"]).2.files := by
  decide

/-- C9, evaluated: when `httpx` fails, `probeSubdomains` ends through
`log.Fatal` and its temporary input file is still in the file system, holding
the candidate; no `os.Remove` has been performed. -/
theorem probeSubdomains_keeps_input_file_on_failure :
    ∃ w, probeSubdomains httpxFailsEnv (World.start stubFS) ["a.example.com"] "" = .fatal w ∧
      w.fs "/tmp/httpx-input-1" = some "a.example.com\n" ∧
      w.files = [FileOp.CreateTemp "/tmp/httpx-input-1"] :=
  ⟨_, rfl, by decide, by decide⟩

/-- C10, evaluated: after a normal return of `probeSubdomains` the temporary
input file is gone but the result file `<input-file>-live` written by `httpx`
is still in the file system; the only `os.Remove` performed is that of the
input file. -/
theorem probeSubdomains_keeps_result_file :
    ∃ live w, probeSubdomains stubEnv (World.start stubFS) ["a.example.com"] "" = .ok live w ∧
      w.fs "/tmp/httpx-input-1" = none ∧
      w.fs "/tmp/httpx-input-1-live" = some "a.example.com\n" ∧
      w.files = [FileOp.CreateTemp "/tmp/httpx-input-1", FileOp.Open "/tmp/httpx-input-1-live",
        FileOp.Remove "/tmp/httpx-input-1"] :=
  ⟨_, _, rfl, by decide, by decide, by decide⟩

end Subfuf
